import Mathlib

/-!
Shallow embedding of the auto-generated list subsystem of RepairBeam
(`src/server/aiService.ts`, the auto-gen-lists route handlers in
`src/server/routes.ts`, and the `auto_gen_lists` table of
`src/shared/schema.ts`), together with theorems settling the
specification claims about it.

Modelling conventions:
* The OpenAI provider is an oracle parameter: each generation call site
  takes an `Except Unit α` outcome, where `Except.error ()` stands for any
  thrown error (transport, provider, or JSON-parse failure) and
  `Except.ok v` for a successfully parsed response.
* JS timestamps are modelled by `Time`, a calendar-month count plus a day
  count; `setDate(getDate()+k)` adds to days, `setMonth(getMonth()+k)` adds
  to months.  All the `new Date()` calls made inside one service operation
  are modelled as the same logical instant `now`.
* JS `Array.prototype.sort()` (code-unit lexicographic comparison) is
  modelled by insertion sort under the `String` order; all the string data
  involved is ASCII, where the two orders agree.
* A parsed JSON object keyed by brand name is an association list
  `List (String × List String)`; JS object key presence stands in for the
  truthiness tests `if (batchResults[brand])` and `if (!results[brand])`
  (array values, even empty arrays, are truthy in JS).
-/

namespace RepairBeam

/-- JS `Date` at the granularity this service uses: a count of calendar
months together with a count of days within the month timeline. -/
structure Time where
  months : Nat
  days : Nat
deriving Repr, DecidableEq

/-- `d.setDate(d.getDate() + k)`, also `Date.now() + k days`. -/
def Time.addDays (k : Nat) (t : Time) : Time :=
  { t with days := t.days + k }

/-- `d.setMonth(d.getMonth() + k)`. -/
def Time.addMonths (k : Nat) (t : Time) : Time :=
  { t with months := t.months + k }

/-- Strict chronological order on `Time`. -/
def Time.before (t u : Time) : Prop :=
  t.months < u.months ∨ (t.months = u.months ∧ t.days < u.days)

instance (t u : Time) : Decidable (t.before u) := by
  unfold Time.before; infer_instance

/-- Lexicographic comparison of char sequences by code point; on ASCII data
this is exactly the UTF-16 code-unit comparison JS `sort()` performs. -/
def charListLe : List Char → List Char → Bool
  | [], _ => true
  | _ :: _, [] => false
  | c :: cs, d :: ds =>
    if c.toNat < d.toNat then true
    else if d.toNat < c.toNat then false
    else charListLe cs ds

/-- The JS default string comparator as a (non-strict, total) order. -/
def jsLe (a b : String) : Bool :=
  charListLe a.data b.data

theorem charListLe_total (a : List Char) : ∀ b, charListLe a b = true ∨ charListLe b a = true := by
  induction a with
  | nil => intro b; left; rfl
  | cons c cs ih =>
    intro b
    cases b with
    | nil => right; rfl
    | cons d ds =>
      rcases Nat.lt_trichotomy c.toNat d.toNat with h | h | h
      · left; simp [charListLe, h]
      · rcases ih ds with h' | h' <;>
          [left; right] <;> simp [charListLe, h, h', Nat.lt_irrefl]
      · right; simp [charListLe, h]

theorem charListLe_trans (a : List Char) :
    ∀ b c, charListLe a b = true → charListLe b c = true → charListLe a c = true := by
  induction a with
  | nil => intro b c _ _; rfl
  | cons x xs ih =>
    intro b c hab hbc
    cases b with
    | nil => simp [charListLe] at hab
    | cons y ys =>
      cases c with
      | nil => simp [charListLe] at hbc
      | cons z zs =>
        simp only [charListLe] at hab hbc ⊢
        rcases Nat.lt_trichotomy x.toNat y.toNat with h1 | h1 | h1
        · rcases Nat.lt_trichotomy y.toNat z.toNat with h2 | h2 | h2
          · simp [show x.toNat < z.toNat from by omega]
          · simp [show x.toNat < z.toNat from by omega]
          · simp [show ¬ y.toNat < z.toNat from by omega, h2] at hbc
        · rcases Nat.lt_trichotomy y.toNat z.toNat with h2 | h2 | h2
          · simp [show x.toNat < z.toNat from by omega]
          · simp [show ¬ x.toNat < y.toNat from by omega,
              show ¬ y.toNat < x.toNat from by omega] at hab
            simp [show ¬ y.toNat < z.toNat from by omega,
              show ¬ z.toNat < y.toNat from by omega] at hbc
            simp [show ¬ x.toNat < z.toNat from by omega,
              show ¬ z.toNat < x.toNat from by omega]
            exact ih ys zs hab hbc
          · simp [show ¬ y.toNat < z.toNat from by omega, h2] at hbc
        · simp [show ¬ x.toNat < y.toNat from by omega, h1] at hab

instance : IsTotal String (fun a b => jsLe a b = true) :=
  ⟨fun a b => charListLe_total a.data b.data⟩

instance : IsTrans String (fun a b => jsLe a b = true) :=
  ⟨fun a b c => charListLe_trans a.data b.data c.data⟩

/-- JS `Array.prototype.sort()` on an array of strings: sorts ascending by
code-unit lexicographic comparison (case-sensitive). -/
def jsSort (l : List String) : List String :=
  l.insertionSort (fun a b => jsLe a b = true)

/-- ASCII lower-casing, formalizing the spec's "case-insensitively". -/
def lowerChar (c : Char) : Char :=
  if 65 ≤ c.toNat ∧ c.toNat ≤ 90 then Char.ofNat (c.toNat + 32) else c

/-- The case-insensitive ascending string order asserted by the spec
sentence "sorted case-insensitively ascending" (this definition follows
the spec's words, to be compared with the order the code actually uses). -/
def caseInsensitiveLe (a b : String) : Bool :=
  charListLe (a.data.map lowerChar) (b.data.map lowerChar)

theorem jsSort_perm (l : List String) : List.Perm (jsSort l) l :=
  List.perm_insertionSort _ l

theorem jsSort_sorted (l : List String) :
    List.Sorted (fun a b => jsLe a b = true) (jsSort l) :=
  List.sorted_insertionSort _ l

/-- `aiService.ts`: result shape of `generateDeviceBrands`. -/
structure BrandGenerationResult where
  brands : List String
  category : String
deriving Repr, DecidableEq

/-- `aiService.ts`: result shape of `generateDeviceModels`. -/
structure ModelGenerationResult where
  models : List String
  brand : String
  category : String
deriving Repr, DecidableEq

/-- `aiService.ts`: result shape of `generateBatchDeviceModels`; `results`
is the accumulated JS object keyed by brand. -/
structure BatchModelGenerationResult where
  results : List (String × List String)
  category : String
deriving Repr, DecidableEq

/-- `aiService.ts` `getFallbackBrands`: the static `fallbackBrands` table
(`fallbackBrands[deviceType] || []`). -/
def fallbackBrandTable (deviceType : String) : List String :=
  if deviceType = "Phone" then
    ["Apple", "Samsung", "Google", "OnePlus", "Xiaomi", "Huawei", "Oppo", "Vivo",
     "LG", "Sony", "Motorola", "Nokia", "Honor", "Realme", "Nothing", "Fairphone"]
  else if deviceType = "Laptop" then
    ["Apple", "Dell", "HP", "Lenovo", "Asus", "Acer", "MSI", "Razer",
     "Microsoft", "Alienware", "Thinkpad", "MacBook", "Surface", "Chromebook"]
  else if deviceType = "Desktop" then
    ["Dell", "HP", "Lenovo", "Asus", "MSI", "Alienware", "Origin PC", "Corsair",
     "NZXT", "CyberPowerPC", "iBuyPower", "Falcon Northwest", "Maingear"]
  else []

/-- `aiService.ts` `getFallbackBrands(deviceType)`: static brand list for
the category, sorted by `.sort()`. -/
def getFallbackBrands (deviceType : String) : BrandGenerationResult :=
  { brands := jsSort (fallbackBrandTable deviceType), category := deviceType }

/-- `aiService.ts` `getFallbackModels`: the static `fallbackModels` table,
`fallbackModels[deviceType]?.[brand]` (`none` when either key is absent). -/
def fallbackModelTable (deviceType brand : String) : Option (List String) :=
  if deviceType = "Phone" then
    if brand = "Apple" then
      some ["iPhone 15 Pro Max", "iPhone 15 Pro", "iPhone 15", "iPhone 14 Pro Max",
            "iPhone 14 Pro", "iPhone 14", "iPhone 13 Pro Max", "iPhone 13 Pro", "iPhone 13"]
    else if brand = "Samsung" then
      some ["Galaxy S24 Ultra", "Galaxy S24+", "Galaxy S24", "Galaxy S23 Ultra",
            "Galaxy S23+", "Galaxy S23", "Galaxy S22 Ultra", "Galaxy S22+", "Galaxy S22"]
    else if brand = "Google" then
      some ["Pixel 8 Pro", "Pixel 8", "Pixel 7 Pro", "Pixel 7", "Pixel 6 Pro", "Pixel 6"]
    else if brand = "OnePlus" then
      some ["OnePlus 12", "OnePlus 11", "OnePlus 10 Pro", "OnePlus 9 Pro", "OnePlus 9"]
    else if brand = "Xiaomi" then
      some ["Xiaomi 14 Ultra", "Xiaomi 14", "Xiaomi 13 Ultra", "Xiaomi 13", "Xiaomi 12 Ultra"]
    else none
  else if deviceType = "Laptop" then
    if brand = "Apple" then
      some ["MacBook Pro 16\" M3", "MacBook Pro 14\" M3", "MacBook Air 15\" M2",
            "MacBook Air 13\" M2", "MacBook Pro 13\" M2"]
    else if brand = "Dell" then
      some ["XPS 13 Plus", "XPS 15", "XPS 17", "Inspiron 15 3000", "Latitude 7420"]
    else if brand = "HP" then
      some ["Spectre x360", "Envy 13", "Pavilion 15", "EliteBook 840", "ProBook 450"]
    else if brand = "Lenovo" then
      some ["ThinkPad X1 Carbon", "ThinkPad T14", "IdeaPad 5", "Legion 5", "Yoga 9i"]
    else if brand = "Asus" then
      some ["ZenBook 14", "VivoBook S15", "ROG Zephyrus G14", "TUF Gaming A15"]
    else none
  else if deviceType = "Desktop" then
    if brand = "Dell" then
      some ["Inspiron 3880", "XPS 8950", "OptiPlex 7090", "Alienware Aurora R13"]
    else if brand = "HP" then
      some ["Pavilion Desktop", "OMEN 45L", "EliteDesk 800", "Workstation Z4"]
    else if brand = "Lenovo" then
      some ["IdeaCentre 5", "Legion Tower 5i", "ThinkCentre M90q", "ThinkStation P340"]
    else if brand = "Asus" then
      some ["VivoPC", "ROG Strix GT35", "Mini PC PN50", "ExpertCenter D5"]
    else if brand = "MSI" then
      some ["Codex R", "Aegis RS 12", "Creator P100X", "Infinite S3"]
    else none
  else none

/-- `aiService.ts` `getFallbackModels(deviceType, brand)`: the static table
entry, or three synthesized placeholder names when absent; sorted by
`.sort()`. -/
def getFallbackModels (deviceType brand : String) : ModelGenerationResult :=
  { models := jsSort ((fallbackModelTable deviceType brand).getD
      [brand ++ " Model 1", brand ++ " Model 2", brand ++ " Model 3"]),
    brand := brand,
    category := deviceType }

/-- `aiService.ts` `generateDeviceBrands(deviceType)`: on a parsed provider
response, `(result.brands || []).sort()`; on any thrown error, the static
fallback. -/
def generateDeviceBrands (deviceType : String)
    (outcome : Except Unit (List String)) : BrandGenerationResult :=
  match outcome with
  | .ok bs => { brands := jsSort bs, category := deviceType }
  | .error _ => getFallbackBrands deviceType

/-- `aiService.ts` `generateDeviceModels(deviceType, brand)`: on a parsed
provider response, `(result.models || []).slice(0, 40)`; on any thrown
error, the static fallback. -/
def generateDeviceModels (deviceType brand : String)
    (outcome : Except Unit (List String)) : ModelGenerationResult :=
  match outcome with
  | .ok ms => { models := ms.take 40, brand := brand, category := deviceType }
  | .error _ => getFallbackModels deviceType brand

/-- A row of the `auto_gen_lists` table (`src/shared/schema.ts`).
`excludedBrands` has schema default `[]`; the service reads it through
`existingList.excludedBrands || []`, so it is modelled as a plain list. -/
structure AutoGenList where
  id : Nat
  listType : String
  category : String
  brand : Option String
  items : List String
  excludedBrands : List String
  refreshInterval : String
  lastGenerated : Time
  nextUpdate : Time
  isActive : Bool
  updatedAt : Time
deriving Repr, DecidableEq

/-- The fields the service passes to `storage.createAutoGenList`
(`InsertAutoGenList`); omitted fields take the schema defaults. -/
structure InsertAutoGenList where
  listType : String
  category : String
  brand : Option String := none
  items : List String
  excludedBrands : List String := []
  lastGenerated : Time
  nextUpdate : Time
  refreshInterval : String := "quarterly"
  isActive : Bool
deriving Repr, DecidableEq

/-- A partial update as passed to `storage.updateAutoGenList`: only the
fields the call site names are replaced. -/
structure AutoGenListPatch where
  items : Option (List String) := none
  excludedBrands : Option (List String) := none
  lastGenerated : Option Time := none
  nextUpdate : Option Time := none
  updatedAt : Option Time := none
deriving Repr, DecidableEq

/-- Modelled from the spec: the Catalog Store's update-by-id is a partial
field replace — each named field is overwritten, every other field of the
row is untouched (spec §4.2; the store implementation itself is not under
`src/`, only its callers and the table schema are). -/
def applyPatch (p : AutoGenListPatch) (l : AutoGenList) : AutoGenList :=
  { l with
    items := p.items.getD l.items
    excludedBrands := p.excludedBrands.getD l.excludedBrands
    lastGenerated := p.lastGenerated.getD l.lastGenerated
    nextUpdate := p.nextUpdate.getD l.nextUpdate
    updatedAt := p.updatedAt.getD l.updatedAt }

/-- Modelled from the spec: the Catalog Store as an ordered table of rows. -/
abbrev Store := List AutoGenList

/-- Modelled from the spec: `storage.getAutoGenList(category)` returns the
category's brand CatalogList — the (first) row for that category that is
not a per-brand model list. -/
def getAutoGenList (store : Store) (category : String) : Option AutoGenList :=
  List.find? (fun l => l.category = category ∧ l.brand = none) store

/-- Modelled from the spec: `storage.getAutoGenListByType(listType)` returns
the (first) row with exactly this `listType` key. -/
def getAutoGenListByType (store : Store) (listType : String) : Option AutoGenList :=
  List.find? (fun l => l.listType = listType) store

/-- The full row an insert produces: the insert's fields plus the
freshly assigned id and the schema-defaulted `updatedAt`. -/
def insRow (ins : InsertAutoGenList) (id : Nat) (now : Time) : AutoGenList :=
  { id := id
    listType := ins.listType
    category := ins.category
    brand := ins.brand
    items := ins.items
    excludedBrands := ins.excludedBrands
    refreshInterval := ins.refreshInterval
    lastGenerated := ins.lastGenerated
    nextUpdate := ins.nextUpdate
    isActive := ins.isActive
    updatedAt := now }

/-- Modelled from the spec: `storage.createAutoGenList(ins)` inserts a new
row with a fresh id; `createdAt`/`updatedAt` take the schema default of the
current time. -/
def createAutoGenList (store : Store) (ins : InsertAutoGenList) (now : Time) : Store :=
  store ++ [insRow ins store.length now]

/-- The row-level effect of an update: patch the row when its id matches. -/
def patchIf (id : Nat) (p : AutoGenListPatch) (l : AutoGenList) : AutoGenList :=
  if l.id = id then applyPatch p l else l

/-- Modelled from the spec: `storage.updateAutoGenList(id, patch)` replaces
the named fields of the row with this id and leaves every other row alone. -/
def updateAutoGenList (store : Store) (id : Nat) (p : AutoGenListPatch) : Store :=
  store.map (patchIf id p)

/-- The row with the given id (ids are unique in a well-formed store). -/
def findById (store : Store) (id : Nat) : Option AutoGenList :=
  List.find? (fun l => l.id = id) store

/-- Well-formed store: row ids are distinct, and all are below the row
count (true of every store built by `createAutoGenList`, which assigns
fresh ids). -/
def StoreWF (store : Store) : Prop :=
  (store.map (fun l => l.id)).Nodup ∧ ∀ l ∈ store, l.id < store.length

/-- `aiService.ts` `getNextUpdate(refreshInterval)`: interval added to the
current time; the TS parameter defaults to `'monthly'`, so call sites that
pass no argument are translated as `getNextUpdate "monthly"`. -/
def getNextUpdate (refreshInterval : String) (now : Time) : Time :=
  if refreshInterval = "weekly" then Time.addDays 7 now
  else if refreshInterval = "biweekly" then Time.addDays 14 now
  else if refreshInterval = "monthly" then Time.addMonths 1 now
  else if refreshInterval = "quarterly" then Time.addMonths 3 now
  else Time.addMonths 1 now

/-- JS object read `o[k]` (`none` when the key is absent). -/
def objGet (o : List (String × List String)) (k : String) : Option (List String) :=
  (List.find? (fun p => p.1 = k) o).map Prod.snd

/-- JS truthiness test `if (o[k])` for array-valued objects: key presence. -/
def objHas (o : List (String × List String)) (k : String) : Bool :=
  (List.find? (fun p => p.1 = k) o).isSome

/-- JS object write `o[k] = v`: overwrite in place when the key exists,
append otherwise (JS objects preserve string-key insertion order). -/
def objSet : List (String × List String) → String → List String →
    List (String × List String)
  | [], k, v => [(k, v)]
  | p :: o, k, v => if p.1 = k then (k, v) :: o else p :: objSet o k v

/-- The keys of a JS object, in insertion order. -/
def objKeys (o : List (String × List String)) : List String :=
  o.map Prod.fst

/-- `for (let i = 0; i < brands.length; i += batchSize) { const batch =
brands.slice(i, i + batchSize); ... }` with `batchSize = 5`: the successive
chunks of the brand list — groups of five, the last chunk possibly
shorter. -/
def chunksOf5 : List String → List (List String)
  | [] => []
  | a :: b :: c :: d :: e :: rest => [a, b, c, d, e] :: chunksOf5 rest
  | l => [l]

/-- Concatenation of a chunk list, to relate chunks to the original
brand list. -/
def flatList : List (List String) → List String
  | [] => []
  | c :: cs => c ++ flatList cs

/-- One successful chunk of `generateBatchDeviceModels` — the
`for (const brand of batch) if (batchResults[brand]) results[brand] =
batchResults[brand].slice(0, 30)` loop: for each brand of the batch, if
the parsed response object has the brand, store its models truncated
to 30. -/
def processOkChunk (resp : List (String × List String)) :
    List String → List (String × List String) → List (String × List String)
  | [], acc => acc
  | b :: bs, acc =>
    processOkChunk resp bs
      (match objGet resp b with
       | some ms => objSet acc b (ms.take 30)
       | none => acc)

/-- One failed chunk of `generateBatchDeviceModels` — the catch-block
`for (const brand of batch) if (!results[brand]) results[brand] =
fallback.models.slice(0, 30)` loop: every brand of the batch that has no
entry yet receives the single-brand fallback truncated to 30. -/
def processErrChunk (deviceType : String) :
    List String → List (String × List String) → List (String × List String)
  | [], acc => acc
  | b :: bs, acc =>
    processErrChunk deviceType bs
      (if objHas acc b then acc
       else objSet acc b ((getFallbackModels deviceType b).models.take 30))

/-- The chunk loop of `generateBatchDeviceModels`; `oracle k` is the
provider outcome of the request for chunk `k`. -/
def processChunks (deviceType : String)
    (oracle : Nat → Except Unit (List (String × List String))) :
    List (List String) → Nat → List (String × List String) →
      List (String × List String)
  | [], _, acc => acc
  | batch :: rest, k, acc =>
    processChunks deviceType oracle rest (k + 1)
      (match oracle k with
       | .ok resp => processOkChunk resp batch acc
       | .error _ => processErrChunk deviceType batch acc)

/-- `aiService.ts` `generateBatchDeviceModels(deviceType, brands)`:
processes the brand list in chunks of 5, merging each chunk's outcome into
the accumulated result object (the inter-chunk delay is a pure throttle
and has no observable effect here). -/
def generateBatchDeviceModels (deviceType : String) (brands : List String)
    (oracle : Nat → Except Unit (List (String × List String))) :
    BatchModelGenerationResult :=
  { results := processChunks deviceType oracle (chunksOf5 brands) 0 []
    category := deviceType }

/-- `Array.from(new Set(l))`: deduplication keeping first occurrences. -/
def jsSetDedupAux (seen : List String) : List String → List String
  | [] => []
  | x :: xs =>
    if x ∈ seen then jsSetDedupAux seen xs
    else x :: jsSetDedupAux (x :: seen) xs

/-- `Array.from(new Set(l))` with an initially empty set. -/
def jsSetDedup (l : List String) : List String :=
  jsSetDedupAux [] l

/-- An ASCII whitespace character, as removed by JS `String.prototype.trim`
(the inputs involved are ASCII). -/
def isSpaceChar (c : Char) : Bool :=
  c.toNat = 32 ∨ (9 ≤ c.toNat ∧ c.toNat ≤ 13)

/-- JS `brandName.trim()`: strip leading and trailing whitespace. -/
def jsTrim (s : String) : String :=
  ⟨((s.data.dropWhile isSpaceChar).reverse.dropWhile isSpaceChar).reverse⟩

/-- `aiService.ts` result shape of `validateAndAddBrand`. -/
structure ValidationResult where
  isValid : Bool
  correctedName : Option String
  added : Bool
deriving Repr, DecidableEq

/-- `aiService.ts` `validateAndAddBrand(deviceType, brandName)`.  The
provider outcome carries the parsed `{isValid, correctedName}` pair; the
JS truthiness test `result.isValid && result.correctedName` requires a
present, non-empty corrected name.  Returns the result together with the
(possibly updated) store. -/
def validateAndAddBrand (deviceType brandName : String)
    (outcome : Except Unit (Bool × Option String)) (store : Store) (now : Time) :
    ValidationResult × Store :=
  let cleanBrand := jsTrim brandName
  if cleanBrand = "" then
    ({ isValid := false, correctedName := none, added := false }, store)
  else
    match outcome with
    | .error _ =>
      ({ isValid := true, correctedName := some brandName, added := false }, store)
    | .ok (valid, corrected) =>
      match valid, corrected with
      | true, some name =>
        if name = "" then
          ({ isValid := false, correctedName := none, added := false }, store)
        else
          match getAutoGenList store deviceType with
          | some existingList =>
            if name ∈ existingList.items then
              ({ isValid := true, correctedName := some name, added := false }, store)
            else
              ({ isValid := true, correctedName := some name, added := true },
               updateAutoGenList store existingList.id
                 { items := some (jsSort (existingList.items ++ [name]))
                   updatedAt := some now })
          | none =>
            ({ isValid := true, correctedName := some name, added := false }, store)
      | _, _ =>
        ({ isValid := false, correctedName := none, added := false }, store)

/-- The per-category body of `aiService.ts` `generateAllDeviceBrandLists`:
generate brands, filter out the stored list's excluded brands when a list
exists, then update in place (with `getNextUpdate()`, i.e. the `'monthly'`
default) or create a new quarterly list. -/
def refreshBrandListStep (deviceType : String)
    (outcome : Except Unit (List String)) (store : Store) (now : Time) : Store :=
  let brands := (generateDeviceBrands deviceType outcome).brands
  match getAutoGenList store deviceType with
  | some existingList =>
    let excludedBrands := existingList.excludedBrands
    let filteredBrands := brands.filter (fun b => decide (b ∉ excludedBrands))
    updateAutoGenList store existingList.id
      { items := some filteredBrands
        lastGenerated := some now
        nextUpdate := some (getNextUpdate "monthly" now)
        updatedAt := some now }
  | none =>
    createAutoGenList store
      { listType := "AutoGen-List-Brands-" ++ deviceType
        category := deviceType
        items := brands
        lastGenerated := now
        nextUpdate := getNextUpdate "quarterly" now
        refreshInterval := "quarterly"
        isActive := true } now

/-- `aiService.ts` `generateAllDeviceBrandLists()`: the refresh step for
each of the three known device types, an error in one category never
stopping the next (errors are absorbed inside the step). -/
def generateAllDeviceBrandLists (oracle : String → Except Unit (List String))
    (store : Store) (now : Time) : Store :=
  List.foldl (fun s dt => refreshBrandListStep dt (oracle dt) s now) store
    ["Phone", "Laptop", "Desktop"]

/-- `routes.ts` `POST /api/auto-gen-lists/:category/update` handler body:
force-refreshes a category's brand list. Unlike the service path, it does
not filter `excludedBrands` and hard-codes `nextUpdate` to seven days. -/
def forceUpdateCategoryHandler (category : String)
    (outcome : Except Unit (List String)) (store : Store) (now : Time) : Store :=
  let brands := (generateDeviceBrands category outcome).brands
  match getAutoGenList store category with
  | some existingList =>
    updateAutoGenList store existingList.id
      { items := some brands
        lastGenerated := some now
        nextUpdate := some (Time.addDays 7 now)
        updatedAt := some now }
  | none =>
    createAutoGenList store
      { listType := "AutoGen-List-Brands-" ++ category
        category := category
        items := brands
        lastGenerated := now
        nextUpdate := Time.addDays 7 now
        isActive := true } now

/-- The `listType` key of the model list for a (category, brand) pair. -/
def modelListType (deviceType brand : String) : String :=
  "AutoGen-List-Models-" ++ deviceType ++ "-" ++ brand

/-- The model-list write inside `generateAllDeviceModelLists`: update the
existing model list in place (with the `'monthly'` default interval), or
create a new quarterly one. -/
def saveModelList (deviceType brand : String) (models : List String)
    (store : Store) (now : Time) : Store :=
  match getAutoGenListByType store (modelListType deviceType brand) with
  | some existingList =>
    updateAutoGenList store existingList.id
      { items := some models
        lastGenerated := some now
        nextUpdate := some (getNextUpdate "monthly" now)
        updatedAt := some now }
  | none =>
    createAutoGenList store
      { listType := modelListType deviceType brand
        category := deviceType
        brand := some brand
        items := models
        lastGenerated := now
        nextUpdate := getNextUpdate "quarterly" now
        refreshInterval := "quarterly"
        isActive := true } now

/-- The per-brand loop of `generateAllDeviceModelLists`: each brand's batch
result (`results[brand] || []`) sends it to the without-models or the
active accumulator; active brands get their model list saved. -/
def sweepLoop (deviceType : String) (results : List (String × List String))
    (now : Time) :
    List String → List String → List String → Store →
      List String × List String × Store
  | [], without, active, s => (without, active, s)
  | brand :: rest, without, active, s =>
    let models := (objGet results brand).getD []
    if models = [] then
      sweepLoop deviceType results now rest (without ++ [brand]) active s
    else
      sweepLoop deviceType results now rest without (active ++ [brand])
        (saveModelList deviceType brand models s now)

/-- `aiService.ts` `generateAllDeviceModelLists(deviceType)` — the full
model sweep: no-op without a non-empty brand list; otherwise batch-generate
models for all brands, save the model list of every brand with models, and,
when any brand came back empty, rewrite the brand list to the active brands
with the no-model brands added to `excludedBrands`. -/
def generateAllDeviceModelLists (deviceType : String)
    (oracle : Nat → Except Unit (List (String × List String)))
    (store : Store) (now : Time) : Store :=
  match getAutoGenList store deviceType with
  | none => store
  | some brandList =>
    if brandList.items.length = 0 then store
    else
      let batchResults := generateBatchDeviceModels deviceType brandList.items oracle
      match sweepLoop deviceType batchResults.results now brandList.items [] [] store with
      | (brandsWithoutModels, activeBrands, store1) =>
        if 0 < brandsWithoutModels.length ∨
            activeBrands.length ≠ brandList.items.length then
          updateAutoGenList store1 brandList.id
            { items := some activeBrands
              excludedBrands :=
                some (jsSetDedup (brandList.excludedBrands ++ brandsWithoutModels))
              lastGenerated := some now
              nextUpdate := some (getNextUpdate "monthly" now)
              updatedAt := some now }
        else store1

/-- A sample Phone brand list whose `excludedBrands` records a model-sweep
exclusion of "Zeno". -/
def phoneListWithZenoExcluded : AutoGenList :=
  { id := 0
    listType := "AutoGen-List-Brands-Phone"
    category := "Phone"
    brand := none
    items := ["Apple"]
    excludedBrands := ["Zeno"]
    refreshInterval := "quarterly"
    lastGenerated := ⟨0, 0⟩
    nextUpdate := ⟨3, 0⟩
    isActive := true
    updatedAt := ⟨0, 0⟩ }

/-- A sample quarterly Phone brand list with nothing excluded. -/
def quarterlyPhoneList : AutoGenList :=
  { id := 0
    listType := "AutoGen-List-Brands-Phone"
    category := "Phone"
    brand := none
    items := ["Apple"]
    excludedBrands := []
    refreshInterval := "quarterly"
    lastGenerated := ⟨0, 0⟩
    nextUpdate := ⟨3, 0⟩
    isActive := true
    updatedAt := ⟨0, 0⟩ }

/-- The row `refreshBrandListStep "Phone"` creates from an empty store at
time (5, 1) with provider proposal `["Apple"]`. -/
def c3CreatedRow : AutoGenList :=
  { id := 0
    listType := "AutoGen-List-Brands-Phone"
    category := "Phone"
    brand := none
    items := ["Apple"]
    excludedBrands := []
    refreshInterval := "quarterly"
    lastGenerated := ⟨5, 1⟩
    nextUpdate := ⟨8, 1⟩
    isActive := true
    updatedAt := ⟨5, 1⟩ }

/-- The row `refreshBrandListStep "Phone"` leaves in the store when
updating `quarterlyPhoneList` at time (10, 2). -/
def c3UpdatedRow : AutoGenList :=
  { id := 0
    listType := "AutoGen-List-Brands-Phone"
    category := "Phone"
    brand := none
    items := ["Apple"]
    excludedBrands := []
    refreshInterval := "quarterly"
    lastGenerated := ⟨10, 2⟩
    nextUpdate := ⟨11, 2⟩
    isActive := true
    updatedAt := ⟨10, 2⟩ }

/-- One service write against the store: a brand-list refresh step or a
validate-and-add call; in a refresh the provider proposals are assumed
duplicate-free (the amended C4 hypothesis — the code does not deduplicate
them). -/
inductive ListOpStep : Store → Store → Prop where
  | refresh (dt : String) (o : Except Unit (List String)) (now : Time) (s : Store)
      (hnd : ∀ bs, o = Except.ok bs → bs.Nodup) :
      ListOpStep s (refreshBrandListStep dt o s now)
  | validate (dt b : String) (o : Except Unit (Bool × Option String)) (now : Time)
      (s : Store) : ListOpStep s (validateAndAddBrand dt b o s now).2

/-- The brand-list row created by a refresh of a fresh Phone category with
proposals `["Samsung", "Apple"]`. -/
def c4Row : AutoGenList :=
  { id := 0
    listType := "AutoGen-List-Brands-Phone"
    category := "Phone"
    brand := none
    items := ["Apple", "Samsung"]
    excludedBrands := []
    refreshInterval := "quarterly"
    lastGenerated := ⟨0, 0⟩
    nextUpdate := ⟨3, 0⟩
    isActive := true
    updatedAt := ⟨0, 0⟩ }

/-- The oracle of the C1 witness: the first chunk succeeds with models for
its five brands, every later chunk fails. -/
def c1Oracle (k : Nat) : Except Unit (List (String × List String)) :=
  if k = 0 then
    Except.ok [("A", ["m1"]), ("B", ["m2"]), ("C", ["m3"]), ("D", ["m4"]), ("E", ["m5"])]
  else Except.error ()

/-- The per-brand batch outcome `batchResults.results[brand] || []` the
model sweep consults. -/
def sweepModels (dt : String) (items : List String)
    (oracle : Nat → Except Unit (List (String × List String))) (b : String) :
    List String :=
  (objGet (generateBatchDeviceModels dt items oracle).results b).getD []

/-- The sweep's `brandsWithoutModels`: brands whose batch result is empty,
in the brand list's order. -/
def sweepWithout (dt : String) (items : List String)
    (oracle : Nat → Except Unit (List (String × List String))) : List String :=
  items.filter (fun b => decide (sweepModels dt items oracle b = []))

/-- The sweep's `activeBrands`: brands with a non-empty batch result, in
the brand list's order. -/
def sweepActive (dt : String) (items : List String)
    (oracle : Nat → Except Unit (List (String × List String))) : List String :=
  items.filter (fun b => !decide (sweepModels dt items oracle b = []))

/-- The Phone brand list of the end-to-end sweep scenario: brands
"Apple" and "Zeno", nothing excluded yet. -/
def c5BrandList : AutoGenList :=
  { id := 0
    listType := "AutoGen-List-Brands-Phone"
    category := "Phone"
    brand := none
    items := ["Apple", "Zeno"]
    excludedBrands := []
    refreshInterval := "quarterly"
    lastGenerated := ⟨0, 0⟩
    nextUpdate := ⟨3, 0⟩
    isActive := true
    updatedAt := ⟨0, 0⟩ }

/-- The batch oracle of the sweep scenario: Apple has one model, Zeno
has none. -/
def c5Oracle : Nat → Except Unit (List (String × List String)) :=
  fun _ => Except.ok [("Apple", ["iPhone 1"]), ("Zeno", [])]

theorem jsSort_length (l : List String) : (jsSort l).length = l.length :=
  (jsSort_perm l).length_eq

theorem jsSort_ne_nil (l : List String) (h : l ≠ []) : jsSort l ≠ [] := by
  intro hc
  apply h
  have hl := jsSort_length l
  rw [hc] at hl
  exact List.length_eq_zero.mp hl.symm

theorem fallbackModelTable_ne_nil (dt b : String) (ls : List String)
    (h : fallbackModelTable dt b = some ls) : ls ≠ [] := by
  unfold fallbackModelTable at h
  split_ifs at h <;> simp_all <;> exact fun hc => by subst h; simp_all

theorem getFallbackModels_models_ne_nil (dt b : String) :
    (getFallbackModels dt b).models ≠ [] := by
  unfold getFallbackModels
  rcases htab : fallbackModelTable dt b with _ | ls
  · simpa [htab] using jsSort_ne_nil _ (by simp)
  · simpa [htab] using jsSort_ne_nil _ (fallbackModelTable_ne_nil dt b ls htab)

/-- C6: when the provider call inside `generateModelsForBrand` or
`generateBrands` throws, the exception is not propagated:
`generateDeviceModels` returns the static per-brand fallback (or three
synthesized placeholders), which is never empty, and `generateDeviceBrands`
returns the built-in static brand list for the category — the empty list
for an unknown category. -/
theorem C6_fallback_no_propagation :
    (∀ dt b, generateDeviceModels dt b (Except.error ()) = getFallbackModels dt b) ∧
    (∀ dt b, (generateDeviceModels dt b (Except.error ())).models ≠ []) ∧
    (∀ dt, generateDeviceBrands dt (Except.error ()) = getFallbackBrands dt) ∧
    (∀ dt, dt ≠ "Phone" → dt ≠ "Laptop" → dt ≠ "Desktop" →
      (generateDeviceBrands dt (Except.error ())).brands = []) := by
  refine ⟨fun dt b => rfl, fun dt b => getFallbackModels_models_ne_nil dt b,
    fun dt => rfl, ?_⟩
  intro dt h1 h2 h3
  simp [generateDeviceBrands, getFallbackBrands, fallbackBrandTable, h1, h2, h3,
    jsSort, List.insertionSort]

/-- C6 witness: the fallback at a concrete category and brand outside the
static tables — three placeholder models, and an empty brand list. -/
theorem C6_fallback_no_propagation_witness :
    (generateDeviceModels "Tablet" "Zeno" (Except.error ())).models ≠ [] ∧
    (generateDeviceBrands "Tablet" (Except.error ())).brands = [] :=
  ⟨C6_fallback_no_propagation.2.1 "Tablet" "Zeno",
   C6_fallback_no_propagation.2.2.2 "Tablet" (by decide) (by decide) (by decide)⟩

/-- C7 counterexample: on the successfully parsed provider list
`["a", "B"]` the code returns `["B", "a"]` (the JS default sort compares
code units, putting every uppercase letter before every lowercase one),
which is not sorted case-insensitively ascending. -/
theorem C7_cex :
    (generateDeviceBrands "Phone" (Except.ok ["a", "B"])).brands = ["B", "a"] ∧
    ¬ List.Pairwise (fun x y => caseInsensitiveLe x y = true)
        ((generateDeviceBrands "Phone" (Except.ok ["a", "B"])).brands) := by
  constructor
  · decide
  · decide

/-- C7 amended: when the provider call succeeds, `generateBrands` returns
the parsed list sorted ascending in the JS default string order — code-unit
lexicographic, hence case-sensitive with uppercase before lowercase — a
permutation of the parsed list. -/
theorem C7_success_sorted_amended (dt : String) (bs : List String) :
    (generateDeviceBrands dt (Except.ok bs)).brands = jsSort bs ∧
    List.Sorted (fun a b => jsLe a b = true)
      ((generateDeviceBrands dt (Except.ok bs)).brands) ∧
    List.Perm ((generateDeviceBrands dt (Except.ok bs)).brands) bs :=
  ⟨rfl, jsSort_sorted bs, jsSort_perm bs⟩

/-- C8: for a non-blank raw brand name, a thrown validation call makes
`validateAndAddBrand` return `isValid=true` with the raw input passed
through unchanged as `correctedName`, `added=false`, and the store is not
written. -/
theorem C8_validation_error_passthrough (dt brandName : String) (store : Store)
    (now : Time) (h : jsTrim brandName ≠ "") :
    validateAndAddBrand dt brandName (Except.error ()) store now =
      ({ isValid := true, correctedName := some brandName, added := false }, store) := by
  unfold validateAndAddBrand
  simp [h]

/-- C8 witness at a concrete misspelled brand and store. -/
theorem C8_validation_error_passthrough_witness :
    validateAndAddBrand "Phone" "Appel" (Except.error ()) [] ⟨0, 0⟩ =
      ({ isValid := true, correctedName := some "Appel", added := false }, []) :=
  C8_validation_error_passthrough "Phone" "Appel" [] ⟨0, 0⟩ (by decide)

theorem find?_ext {α : Type} (q q' : α → Bool) (h : ∀ x, q x = q' x)
    (l : List α) : List.find? q l = List.find? q' l := by
  induction l with
  | nil => rfl
  | cons a l ih =>
    simp only [List.find?]
    rw [h a]
    cases q' a <;> simp [ih]

theorem patchIf_id (i : Nat) (p : AutoGenListPatch) (l : AutoGenList) :
    (patchIf i p l).id = l.id := by
  unfold patchIf; split <;> rfl

theorem length_update (s : Store) (i : Nat) (p : AutoGenListPatch) :
    (updateAutoGenList s i p).length = s.length :=
  List.length_map s _

theorem map_id_update (s : Store) (i : Nat) (p : AutoGenListPatch) :
    (updateAutoGenList s i p).map (fun l => l.id) = s.map (fun l => l.id) := by
  unfold updateAutoGenList
  rw [List.map_map]
  exact List.map_congr_left (fun l _ => patchIf_id i p l)

theorem storeWF_update (s : Store) (i : Nat) (p : AutoGenListPatch)
    (h : StoreWF s) : StoreWF (updateAutoGenList s i p) := by
  refine ⟨by rw [map_id_update]; exact h.1, ?_⟩
  intro l hl
  rw [length_update]
  obtain ⟨l', hl', rfl⟩ := List.mem_map.mp hl
  rw [show (patchIf i p l').id = l'.id from patchIf_id i p l']
  exact h.2 l' hl'

theorem storeWF_create (s : Store) (ins : InsertAutoGenList) (now : Time)
    (h : StoreWF s) : StoreWF (createAutoGenList s ins now) := by
  obtain ⟨h1, h2⟩ := h
  constructor
  · unfold createAutoGenList
    rw [List.map_append]
    rw [List.nodup_append]
    refine ⟨h1, List.nodup_singleton _, ?_⟩
    intro x hx hy
    simp only [insRow, List.map_cons, List.map_nil, List.mem_singleton] at hy
    subst hy
    obtain ⟨l, hl, hid⟩ := List.mem_map.mp hx
    exact absurd (hid ▸ h2 l hl) (Nat.lt_irrefl _)
  · intro l hl
    unfold createAutoGenList at hl ⊢
    rw [List.length_append]
    rcases List.mem_append.mp hl with hmem | hmem
    · exact Nat.lt_of_lt_of_le (h2 l hmem) (Nat.le_add_right _ _)
    · simp only [List.mem_singleton] at hmem
      subst hmem
      simp [insRow]

theorem find?_update_preserved (s : Store) (i : Nat) (p : AutoGenListPatch)
    (q : AutoGenList → Bool) (hq : ∀ l, q (applyPatch p l) = q l) :
    List.find? q (updateAutoGenList s i p) =
      (List.find? q s).map (patchIf i p) := by
  unfold updateAutoGenList
  rw [List.find?_map]
  have hqe : List.find? (q ∘ patchIf i p) s = List.find? q s := by
    apply find?_ext
    intro l
    simp only [Function.comp, patchIf]
    by_cases h : l.id = i <;> simp [h, hq]
  rw [hqe]

theorem getAutoGenList_update (s : Store) (i : Nat) (p : AutoGenListPatch)
    (c : String) :
    getAutoGenList (updateAutoGenList s i p) c =
      (getAutoGenList s c).map (patchIf i p) :=
  find?_update_preserved s i p _ (fun _ => rfl)

theorem getByType_update (s : Store) (i : Nat) (p : AutoGenListPatch)
    (t : String) :
    getAutoGenListByType (updateAutoGenList s i p) t =
      (getAutoGenListByType s t).map (patchIf i p) :=
  find?_update_preserved s i p _ (fun _ => rfl)

theorem findById_update (s : Store) (i : Nat) (p : AutoGenListPatch) (j : Nat) :
    findById (updateAutoGenList s i p) j = (findById s j).map (patchIf i p) :=
  find?_update_preserved s i p _ (fun _ => rfl)

theorem find?_id_of_nodup (s : Store) (bl : AutoGenList) (hmem : bl ∈ s)
    (hnd : (s.map (fun l => l.id)).Nodup) :
    List.find? (fun l => l.id = bl.id) s = some bl := by
  induction s with
  | nil => cases hmem
  | cons a s ih =>
    simp only [List.map_cons, List.nodup_cons] at hnd
    rcases List.mem_cons.mp hmem with rfl | hmem'
    · simp [List.find?]
    · have hne : a.id ≠ bl.id := fun he =>
        hnd.1 (he ▸ List.mem_map_of_mem (fun l => l.id) hmem')
      simp only [List.find?]
      rw [decide_eq_false hne]
      exact ih hmem' hnd.2

theorem findById_of_mem (s : Store) (bl : AutoGenList) (hmem : bl ∈ s)
    (hwf : StoreWF s) : findById s bl.id = some bl :=
  find?_id_of_nodup s bl hmem hwf.1

theorem find?_create (s : Store) (ins : InsertAutoGenList) (now : Time)
    (q : AutoGenList → Bool) :
    List.find? q (createAutoGenList s ins now) =
      (List.find? q s).or (List.find? q [insRow ins s.length now]) :=
  List.find?_append

/-- C2: the claim is right and the code violates it — the
`POST /api/auto-gen-lists/:category/update` handler (the endpoint that
forces a brand-list refresh) persists the freshly generated brand names
without filtering `excludedBrands`: with "Zeno" excluded by a model sweep
and proposed again by the provider, the stored items contain "Zeno"
again, while the service's own `generateAllDeviceBrandLists` path (and the
schema comment on `excludedBrands`) shows suppression is intended. -/
theorem C2_refresh_reintroduces_excluded_bug :
    phoneListWithZenoExcluded.excludedBrands = ["Zeno"] ∧
    (getAutoGenList
        (forceUpdateCategoryHandler "Phone" (Except.ok ["Zeno"])
          [phoneListWithZenoExcluded] ⟨10, 0⟩) "Phone").map (fun l => l.items) =
      some ["Zeno"] := by
  exact ⟨rfl, by decide⟩

/-- C3 counterexample: a quarterly brand list updated through the
service's refresh step gets `nextRefreshAt` one month after
`lastGeneratedAt`, not the configured quarterly three months. -/
theorem C3_cex :
    (findById (refreshBrandListStep "Phone" (Except.ok ["Apple"])
        [quarterlyPhoneList] ⟨10, 2⟩) 0).map
        (fun l => (l.refreshInterval, l.lastGenerated, l.nextUpdate)) =
      some ("quarterly", (⟨10, 2⟩ : Time), (⟨11, 2⟩ : Time)) ∧
    (⟨11, 2⟩ : Time) ≠ Time.addMonths 3 (⟨10, 2⟩ : Time) := by
  exact ⟨by decide, by decide⟩

/-- C3 amended: after a create by the service's brand/model refresh
operations, `nextRefreshAt` equals `lastGeneratedAt` plus three months
(quarterly); after an in-place update by those operations it equals
`lastGeneratedAt` plus one month — the `getNextUpdate()` default —
regardless of the record's configured `refreshInterval`; in every case
`nextRefreshAt` is strictly later than `lastGeneratedAt`. -/
theorem C3_refresh_timestamps_amended :
    (∀ dt o store now r, getAutoGenList store dt = none →
        refreshBrandListStep dt o store now = store ++ [r] →
        r.lastGenerated = now ∧ r.nextUpdate = Time.addMonths 3 r.lastGenerated ∧
          Time.before r.lastGenerated r.nextUpdate ∧ r.refreshInterval = "quarterly") ∧
    (∀ dt o store now bl r, getAutoGenList store dt = some bl →
        findById (refreshBrandListStep dt o store now) bl.id = some r →
        r.lastGenerated = now ∧ r.nextUpdate = Time.addMonths 1 r.lastGenerated ∧
          Time.before r.lastGenerated r.nextUpdate) ∧
    (∀ dt b ms store now r, getAutoGenListByType store (modelListType dt b) = none →
        saveModelList dt b ms store now = store ++ [r] →
        r.lastGenerated = now ∧ r.nextUpdate = Time.addMonths 3 r.lastGenerated ∧
          Time.before r.lastGenerated r.nextUpdate ∧ r.refreshInterval = "quarterly") ∧
    (∀ dt b ms store now ex r, getAutoGenListByType store (modelListType dt b) = some ex →
        findById (saveModelList dt b ms store now) ex.id = some r →
        r.lastGenerated = now ∧ r.nextUpdate = Time.addMonths 1 r.lastGenerated ∧
          Time.before r.lastGenerated r.nextUpdate) := by
  refine ⟨?_, ?_, ?_, ?_⟩
  · intro dt o store now r hnone heq
    simp only [refreshBrandListStep, hnone, createAutoGenList] at heq
    have h3 := List.append_cancel_left heq
    simp only [List.cons.injEq, and_true] at h3
    subst h3
    refine ⟨rfl, ?_, ?_, rfl⟩
    · simp [insRow, getNextUpdate]
    · simp [insRow, getNextUpdate, Time.before, Time.addMonths]
  · intro dt o store now bl r hbl hfind
    simp only [refreshBrandListStep, hbl, findById_update] at hfind
    rcases hrow : findById store bl.id with _ | row
    · rw [hrow] at hfind; cases hfind
    · rw [hrow] at hfind
      have hid : row.id = bl.id := by
        have := List.find?_some hrow
        simpa using this
      simp only [Option.map_some'] at hfind
      unfold patchIf at hfind
      rw [if_pos hid] at hfind
      simp only [Option.some.injEq] at hfind
      subst hfind
      refine ⟨rfl, ?_, ?_⟩
      · simp [applyPatch, getNextUpdate]
      · simp [applyPatch, getNextUpdate, Time.before, Time.addMonths]
  · intro dt b ms store now r hnone heq
    simp only [saveModelList, hnone, createAutoGenList] at heq
    have h3 := List.append_cancel_left heq
    simp only [List.cons.injEq, and_true] at h3
    subst h3
    refine ⟨rfl, ?_, ?_, rfl⟩
    · simp [insRow, getNextUpdate]
    · simp [insRow, getNextUpdate, Time.before, Time.addMonths]
  · intro dt b ms store now ex r hex hfind
    simp only [saveModelList, hex, findById_update] at hfind
    rcases hrow : findById store ex.id with _ | row
    · rw [hrow] at hfind; cases hfind
    · rw [hrow] at hfind
      have hid : row.id = ex.id := by
        have := List.find?_some hrow
        simpa using this
      simp only [Option.map_some'] at hfind
      unfold patchIf at hfind
      rw [if_pos hid] at hfind
      simp only [Option.some.injEq] at hfind
      subst hfind
      refine ⟨rfl, ?_, ?_⟩
      · simp [applyPatch, getNextUpdate]
      · simp [applyPatch, getNextUpdate, Time.before, Time.addMonths]

/-- C3 amended witness: a concrete create (quarterly, +3 months) and a
concrete in-place update of a quarterly list (+1 month). -/
theorem C3_refresh_timestamps_amended_witness :
    (c3CreatedRow.lastGenerated = ⟨5, 1⟩ ∧
      c3CreatedRow.nextUpdate = Time.addMonths 3 c3CreatedRow.lastGenerated ∧
      Time.before c3CreatedRow.lastGenerated c3CreatedRow.nextUpdate ∧
      c3CreatedRow.refreshInterval = "quarterly") ∧
    (c3UpdatedRow.lastGenerated = ⟨10, 2⟩ ∧
      c3UpdatedRow.nextUpdate = Time.addMonths 1 c3UpdatedRow.lastGenerated ∧
      Time.before c3UpdatedRow.lastGenerated c3UpdatedRow.nextUpdate) :=
  ⟨C3_refresh_timestamps_amended.1 "Phone" (Except.ok ["Apple"]) [] ⟨5, 1⟩
      c3CreatedRow rfl (by decide),
   C3_refresh_timestamps_amended.2.1 "Phone" (Except.ok ["Apple"])
      [quarterlyPhoneList] ⟨10, 2⟩ quarterlyPhoneList c3UpdatedRow
      (by decide) (by decide)⟩

/-- C9: `validateAndAddBrand` never consults `excludedBrands`: when brand
`B` is excluded but absent from `items` and the provider judges it valid
with canonical name `B`, the call appends `B` to `items`, persists the
re-sorted list, and reports `added = true` — a swept-out brand can be
manually re-added. -/
theorem C9_validate_ignores_excluded (dt B : String) (store : Store) (now : Time)
    (bl : AutoGenList) (hwf : StoreWF store)
    (hbl : getAutoGenList store dt = some bl)
    (hexcl : B ∈ bl.excludedBrands)
    (hnotin : B ∉ bl.items)
    (htrim : jsTrim B ≠ "") (hne : B ≠ "") :
    (validateAndAddBrand dt B (Except.ok (true, some B)) store now).1 =
      { isValid := true, correctedName := some B, added := true } ∧
    findById (validateAndAddBrand dt B (Except.ok (true, some B)) store now).2 bl.id =
      some { bl with items := jsSort (bl.items ++ [B]), updatedAt := now } ∧
    B ∈ jsSort (bl.items ++ [B]) := by
  have hmem : bl ∈ store := List.mem_of_find?_eq_some hbl
  have hself : findById store bl.id = some bl := findById_of_mem store bl hmem hwf
  refine ⟨?_, ?_, ?_⟩
  · simp [validateAndAddBrand, htrim, hne, hbl, hnotin]
  · have h2 : (validateAndAddBrand dt B (Except.ok (true, some B)) store now).2 =
        updateAutoGenList store bl.id
          { items := some (jsSort (bl.items ++ [B])), updatedAt := some now } := by
      simp [validateAndAddBrand, htrim, hne, hbl, hnotin]
    rw [h2, findById_update, hself, Option.map_some']
    unfold patchIf
    rw [if_pos rfl]
    rfl
  · exact (jsSort_perm (bl.items ++ [B])).mem_iff.mpr
      (List.mem_append_right _ (List.mem_singleton.mpr rfl))

/-- C9 witness: re-adding the excluded "Zeno" to the Phone brand list. -/
theorem C9_validate_ignores_excluded_witness :
    (validateAndAddBrand "Phone" "Zeno" (Except.ok (true, some "Zeno"))
        [phoneListWithZenoExcluded] ⟨10, 0⟩).1 =
      { isValid := true, correctedName := some "Zeno", added := true } ∧
    findById (validateAndAddBrand "Phone" "Zeno" (Except.ok (true, some "Zeno"))
        [phoneListWithZenoExcluded] ⟨10, 0⟩).2 phoneListWithZenoExcluded.id =
      some { phoneListWithZenoExcluded with
              items := jsSort (phoneListWithZenoExcluded.items ++ ["Zeno"])
              updatedAt := ⟨10, 0⟩ } ∧
    "Zeno" ∈ jsSort (phoneListWithZenoExcluded.items ++ ["Zeno"]) :=
  C9_validate_ignores_excluded "Phone" "Zeno" [phoneListWithZenoExcluded] ⟨10, 0⟩
    phoneListWithZenoExcluded (by constructor <;> decide) (by decide) (by decide)
    (by decide) (by decide) (by decide)

/-- C10: when `validateAndAddBrand` adds a brand, the persisted update
writes only `items` (the previous items plus the canonical name,
re-sorted) and `updatedAt`; `lastGeneratedAt`, `nextRefreshAt`,
`refreshInterval`, `excludedBrands`, `listType`, `category`, `brand` and
`isActive` are untouched — shown by the updated row being exactly the old
row with only those two fields replaced — and every other row of the
store is unchanged. -/
theorem C10_manual_add_writes_only_items (dt raw name : String) (store : Store)
    (now : Time) (bl : AutoGenList) (hwf : StoreWF store)
    (hbl : getAutoGenList store dt = some bl)
    (htrim : jsTrim raw ≠ "") (hname : name ≠ "")
    (hnotin : name ∉ bl.items) :
    (validateAndAddBrand dt raw (Except.ok (true, some name)) store now).1.added = true ∧
    findById (validateAndAddBrand dt raw (Except.ok (true, some name)) store now).2 bl.id =
      some { bl with items := jsSort (bl.items ++ [name]), updatedAt := now } ∧
    (∀ l ∈ store, l.id ≠ bl.id →
      l ∈ (validateAndAddBrand dt raw (Except.ok (true, some name)) store now).2) ∧
    (validateAndAddBrand dt raw (Except.ok (true, some name)) store now).2.length =
      store.length := by
  have hmem : bl ∈ store := List.mem_of_find?_eq_some hbl
  have hself : findById store bl.id = some bl := findById_of_mem store bl hmem hwf
  refine ⟨?_, ?_, ?_, ?_⟩
  · simp [validateAndAddBrand, htrim, hname, hbl, hnotin]
  · have h2 : (validateAndAddBrand dt raw (Except.ok (true, some name)) store now).2 =
        updateAutoGenList store bl.id
          { items := some (jsSort (bl.items ++ [name])), updatedAt := some now } := by
      simp [validateAndAddBrand, htrim, hname, hbl, hnotin]
    rw [h2, findById_update, hself, Option.map_some']
    unfold patchIf
    rw [if_pos rfl]
    rfl
  · intro l hl hlid
    have h2 : (validateAndAddBrand dt raw (Except.ok (true, some name)) store now).2 =
        updateAutoGenList store bl.id
          { items := some (jsSort (bl.items ++ [name])), updatedAt := some now } := by
      simp [validateAndAddBrand, htrim, hname, hbl, hnotin]
    rw [h2]
    unfold updateAutoGenList
    have hfix : patchIf bl.id
        { items := some (jsSort (bl.items ++ [name])), updatedAt := some now } l = l := by
      unfold patchIf
      rw [if_neg hlid]
    exact hfix ▸ List.mem_map_of_mem _ hl
  · have h2 : (validateAndAddBrand dt raw (Except.ok (true, some name)) store now).2 =
        updateAutoGenList store bl.id
          { items := some (jsSort (bl.items ++ [name])), updatedAt := some now } := by
      simp [validateAndAddBrand, htrim, hname, hbl, hnotin]
    rw [h2]
    exact length_update store bl.id _

/-- C10 witness: a concrete manual add leaving the refresh schedule of the
list untouched. -/
theorem C10_manual_add_writes_only_items_witness :
    (validateAndAddBrand "Phone" "Samsungg" (Except.ok (true, some "Samsung"))
        [quarterlyPhoneList] ⟨1, 3⟩).1.added = true ∧
    findById (validateAndAddBrand "Phone" "Samsungg" (Except.ok (true, some "Samsung"))
        [quarterlyPhoneList] ⟨1, 3⟩).2 quarterlyPhoneList.id =
      some { quarterlyPhoneList with
              items := jsSort (quarterlyPhoneList.items ++ ["Samsung"])
              updatedAt := ⟨1, 3⟩ } ∧
    (∀ l ∈ ([quarterlyPhoneList] : Store), l.id ≠ quarterlyPhoneList.id →
      l ∈ (validateAndAddBrand "Phone" "Samsungg" (Except.ok (true, some "Samsung"))
        [quarterlyPhoneList] ⟨1, 3⟩).2) ∧
    (validateAndAddBrand "Phone" "Samsungg" (Except.ok (true, some "Samsung"))
        [quarterlyPhoneList] ⟨1, 3⟩).2.length = ([quarterlyPhoneList] : Store).length :=
  C10_manual_add_writes_only_items "Phone" "Samsungg" "Samsung" [quarterlyPhoneList]
    ⟨1, 3⟩ quarterlyPhoneList (by constructor <;> decide) (by decide) (by decide)
    (by decide) (by decide)

theorem fallbackBrandTable_nodup (dt : String) : (fallbackBrandTable dt).Nodup := by
  unfold fallbackBrandTable
  split_ifs <;> decide

theorem jsSort_nodup (l : List String) (h : l.Nodup) : (jsSort l).Nodup :=
  (jsSort_perm l).nodup_iff.mpr h

theorem generateDeviceBrands_nodup (dt : String) (o : Except Unit (List String))
    (hnd : ∀ bs, o = Except.ok bs → bs.Nodup) :
    (generateDeviceBrands dt o).brands.Nodup := by
  rcases o with e | bs
  · exact jsSort_nodup _ (fallbackBrandTable_nodup dt)
  · exact jsSort_nodup _ (hnd bs rfl)

theorem refreshStep_nodup (dt : String) (o : Except Unit (List String))
    (s : Store) (now : Time) (hnd : ∀ bs, o = Except.ok bs → bs.Nodup)
    (hs : ∀ l ∈ s, l.items.Nodup) :
    ∀ l ∈ refreshBrandListStep dt o s now, l.items.Nodup := by
  intro l hl
  have hbr : (generateDeviceBrands dt o).brands.Nodup :=
    generateDeviceBrands_nodup dt o hnd
  unfold refreshBrandListStep at hl
  rcases hget : getAutoGenList s dt with _ | ex
  · rw [hget] at hl
    simp only [createAutoGenList] at hl
    rcases List.mem_append.mp hl with h | h
    · exact hs l h
    · simp only [List.mem_singleton] at h
      subst h
      exact hbr
  · rw [hget] at hl
    simp only [updateAutoGenList] at hl
    obtain ⟨m, hm, rfl⟩ := List.mem_map.mp hl
    unfold patchIf
    by_cases hid : m.id = ex.id
    · rw [if_pos hid]
      exact List.Nodup.filter _ hbr
    · rw [if_neg hid]
      exact hs m hm

theorem validate_nodup (dt b : String) (o : Except Unit (Bool × Option String))
    (s : Store) (now : Time) (hs : ∀ l ∈ s, l.items.Nodup) :
    ∀ l ∈ (validateAndAddBrand dt b o s now).2, l.items.Nodup := by
  intro l hl
  unfold validateAndAddBrand at hl
  by_cases ht : jsTrim b = ""
  · rw [if_pos ht] at hl
    exact hs l hl
  · rw [if_neg ht] at hl
    rcases o with e | ⟨valid, corrected⟩
    · exact hs l hl
    · rcases valid with _ | _
      · exact hs l hl
      · rcases corrected with _ | name
        · exact hs l hl
        · simp only at hl
          by_cases hn : name = ""
          · rw [if_pos hn] at hl
            exact hs l hl
          · rw [if_neg hn] at hl
            rcases hget : getAutoGenList s dt with _ | ex
            · rw [hget] at hl
              exact hs l hl
            · simp only [hget] at hl
              by_cases hin : name ∈ ex.items
              · rw [if_pos hin] at hl
                exact hs l hl
              · rw [if_neg hin] at hl
                simp only [updateAutoGenList] at hl
                obtain ⟨m, hm, rfl⟩ := List.mem_map.mp hl
                unfold patchIf
                by_cases hid : m.id = ex.id
                · rw [if_pos hid]
                  apply jsSort_nodup
                  rw [List.nodup_append]
                  exact ⟨hs ex (List.mem_of_find?_eq_some hget),
                    List.nodup_singleton _, List.disjoint_singleton.mpr hin⟩
                · rw [if_neg hid]
                  exact hs m hm

/-- C4 counterexample: a single brand-list refresh from an empty store, with
the provider proposing `["Apple", "Apple"]`, stores `items` with a
case-sensitive duplicate — the code sorts but never deduplicates. -/
theorem C4_cex :
    ((refreshBrandListStep "Phone" (Except.ok ["Apple", "Apple"]) [] ⟨0, 0⟩).map
      (fun l => l.items)) = [["Apple", "Apple"]] ∧
    ¬ (["Apple", "Apple"] : List String).Nodup :=
  ⟨by decide, by decide⟩

/-- C4 amended: after any sequence of brand-list refreshes and
validate-and-add calls, `items` of every stored list is duplicate-free,
provided every successfully parsed provider proposal list is itself
duplicate-free (`validateAndAddBrand` needs no such hypothesis: it checks
membership before appending). -/
theorem C4_no_duplicates_amended (s s' : Store)
    (hsteps : Relation.ReflTransGen ListOpStep s s')
    (hinit : ∀ l ∈ s, l.items.Nodup) :
    ∀ l ∈ s', l.items.Nodup := by
  induction hsteps with
  | refl => exact hinit
  | tail hab hstep ih =>
    cases hstep with
    | refresh dt o now sM hnd => exact refreshStep_nodup _ _ _ _ hnd ih
    | validate dt b o now sM => exact validate_nodup _ _ _ _ _ ih

/-- C4 amended witness: the list refreshed from proposals
`["Samsung", "Apple"]` has duplicate-free items. -/
theorem C4_no_duplicates_amended_witness : c4Row.items.Nodup :=
  C4_no_duplicates_amended [] [c4Row]
    (Relation.ReflTransGen.single
      ((show refreshBrandListStep "Phone" (Except.ok ["Samsung", "Apple"]) [] ⟨0, 0⟩ =
          [c4Row] from by decide) ▸
        ListOpStep.refresh "Phone" (Except.ok ["Samsung", "Apple"]) ⟨0, 0⟩ []
          (fun bs h => by cases h; decide)))
    (by simp) c4Row (by decide)

theorem objHas_eq_isSome_objGet (o : List (String × List String)) (k : String) :
    objHas o k = (objGet o k).isSome := by
  unfold objHas objGet
  cases List.find? (fun p => p.1 = k) o <;> rfl

theorem objGet_set_self (o : List (String × List String)) (k : String)
    (v : List String) : objGet (objSet o k v) k = some v := by
  induction o with
  | nil => simp [objSet, objGet, List.find?]
  | cons p o ih =>
    by_cases hk : p.1 = k
    · simp [objSet, hk, objGet, List.find?]
    · simp only [objSet, if_neg hk]
      simpa [objGet, List.find?, hk] using ih

theorem objGet_set_other (o : List (String × List String)) (k x : String)
    (v : List String) (hx : x ≠ k) : objGet (objSet o k v) x = objGet o x := by
  have hkx : k ≠ x := fun h => hx h.symm
  induction o with
  | nil => simp [objSet, objGet, List.find?, hkx]
  | cons p o ih =>
    by_cases hk : p.1 = k
    · have hpx : p.1 ≠ x := by rw [hk]; exact hkx
      simp [objSet, if_pos hk, objGet, List.find?, hkx, hpx]
    · simp only [objSet, if_neg hk]
      by_cases hp : p.1 = x
      · simp [objGet, List.find?, hp]
      · simpa [objGet, List.find?, hp] using ih

theorem objKeys_set (o : List (String × List String)) (k : String)
    (v : List String) :
    objKeys (objSet o k v) =
      if objHas o k then objKeys o else objKeys o ++ [k] := by
  induction o with
  | nil => simp [objSet, objHas, objKeys, List.find?]
  | cons p o ih =>
    by_cases hk : p.1 = k
    · simp [objSet, if_pos hk, objHas, objKeys, List.find?, hk]
    · have hhas : objHas (p :: o) k = objHas o k := by
        simp [objHas, List.find?, hk]
      rw [hhas]
      simp only [objSet, if_neg hk]
      rw [show objKeys (p :: objSet o k v) = p.1 :: objKeys (objSet o k v) from rfl]
      rw [ih]
      by_cases h : objHas o k
      · rw [if_pos h, if_pos h]
        rfl
      · rw [if_neg h, if_neg h]
        rfl

theorem objHas_iff_mem_keys (o : List (String × List String)) (k : String) :
    objHas o k = true ↔ k ∈ objKeys o := by
  induction o with
  | nil => simp [objHas, objKeys, List.find?]
  | cons p o ih =>
    by_cases hp : p.1 = k
    · simp [objHas, objKeys, List.find?, hp]
    · simp only [objHas, List.find?] at ih ⊢
      rw [decide_eq_false hp]
      simp only [objKeys, List.map_cons, List.mem_cons]
      rw [ih]
      constructor
      · exact fun h => Or.inr h
      · rintro (h | h)
        · exact absurd h.symm hp
        · exact h

theorem objGet_eq_some_of_objHas (o : List (String × List String)) (k : String)
    (h : objHas o k = true) : ∃ v, objGet o k = some v := by
  rw [objHas_eq_isSome_objGet] at h
  exact Option.isSome_iff_exists.mp h

theorem objHas_set (o : List (String × List String)) (k x : String)
    (v : List String) :
    objHas (objSet o k v) x = (decide (x = k) || objHas o x) := by
  rw [objHas_eq_isSome_objGet, objHas_eq_isSome_objGet]
  by_cases hx : x = k
  · subst hx
    rw [objGet_set_self]
    simp
  · rw [objGet_set_other o k x v hx]
    simp [hx]

theorem processOkChunk_keys (resp : List (String × List String)) :
    ∀ (batch : List String) (acc : List (String × List String)),
      batch.Nodup → (∀ b ∈ batch, objHas resp b = true) →
      (∀ b ∈ batch, objHas acc b = false) →
      objKeys (processOkChunk resp batch acc) = objKeys acc ++ batch := by
  intro batch
  induction batch with
  | nil => intro acc _ _ _; simp [processOkChunk]
  | cons b bs ih =>
    intro acc hnd hcov hdis
    simp only [List.nodup_cons] at hnd
    obtain ⟨ms, hms⟩ := objGet_eq_some_of_objHas resp b (hcov b (List.mem_cons_self b bs))
    simp only [processOkChunk, hms]
    rw [ih (objSet acc b (ms.take 30)) hnd.2
      (fun x hx => hcov x (List.mem_cons_of_mem _ hx))
      (fun x hx => by
        rw [objHas_set]
        have hxb : x ≠ b := fun he => hnd.1 (he ▸ hx)
        simp [hxb, hdis x (List.mem_cons_of_mem _ hx)])]
    rw [objKeys_set, if_neg (by simp [hdis b (List.mem_cons_self b bs)])]
    simp

theorem processOkChunk_frame (resp : List (String × List String)) :
    ∀ (batch : List String) (acc : List (String × List String)) (x : String),
      x ∉ batch →
      objGet (processOkChunk resp batch acc) x = objGet acc x := by
  intro batch
  induction batch with
  | nil => intro acc x _; rfl
  | cons b bs ih =>
    intro acc x hx
    have hxb : x ≠ b := fun h => hx (h ▸ List.mem_cons_self b bs)
    have hxbs : x ∉ bs := fun h => hx (List.mem_cons_of_mem _ h)
    rcases hms : objGet resp b with _ | ms <;> simp only [processOkChunk, hms]
    · exact ih acc x hxbs
    · rw [ih _ x hxbs, objGet_set_other _ _ _ _ hxb]

theorem processErrChunk_keys (dt : String) :
    ∀ (batch : List String) (acc : List (String × List String)),
      batch.Nodup →
      (∀ b ∈ batch, objHas acc b = false) →
      objKeys (processErrChunk dt batch acc) = objKeys acc ++ batch := by
  intro batch
  induction batch with
  | nil => intro acc _ _; simp [processErrChunk]
  | cons b bs ih =>
    intro acc hnd hdis
    simp only [List.nodup_cons] at hnd
    have hd : objHas acc b = false := hdis b (List.mem_cons_self b bs)
    simp only [processErrChunk, hd, Bool.false_eq_true, if_false]
    rw [ih (objSet acc b ((getFallbackModels dt b).models.take 30)) hnd.2
      (fun x hx => by
        rw [objHas_set]
        have hxb : x ≠ b := fun he => hnd.1 (he ▸ hx)
        simp [hxb, hdis x (List.mem_cons_of_mem _ hx)])]
    rw [objKeys_set, if_neg (by simp [hd])]
    simp

theorem processErrChunk_frame (dt : String) :
    ∀ (batch : List String) (acc : List (String × List String)) (x : String),
      x ∉ batch →
      objGet (processErrChunk dt batch acc) x = objGet acc x := by
  intro batch
  induction batch with
  | nil => intro acc x _; rfl
  | cons b bs ih =>
    intro acc x hx
    have hxb : x ≠ b := fun h => hx (h ▸ List.mem_cons_self b bs)
    have hxbs : x ∉ bs := fun h => hx (List.mem_cons_of_mem _ h)
    by_cases hd : objHas acc b = true <;> simp only [processErrChunk, hd, if_true]
    · exact ih acc x hxbs
    · rw [if_neg (by simp [hd])]
      rw [ih _ x hxbs, objGet_set_other _ _ _ _ hxb]

theorem processErrChunk_get (dt : String) :
    ∀ (batch : List String) (acc : List (String × List String)),
      batch.Nodup →
      (∀ b ∈ batch, objHas acc b = false) →
      ∀ b ∈ batch,
        objGet (processErrChunk dt batch acc) b =
          some ((getFallbackModels dt b).models.take 30) := by
  intro batch
  induction batch with
  | nil => intro acc _ _ b hb; cases hb
  | cons b bs ih =>
    intro acc hnd hdis x hx
    simp only [List.nodup_cons] at hnd
    have hd : objHas acc b = false := hdis b (List.mem_cons_self b bs)
    simp only [processErrChunk, hd, Bool.false_eq_true, if_false]
    rcases List.mem_cons.mp hx with rfl | hxbs
    · rw [processErrChunk_frame dt bs _ x hnd.1]
      exact objGet_set_self acc x _
    · exact ih (objSet acc b ((getFallbackModels dt b).models.take 30))
        hnd.2
        (fun y hy => by
          rw [objHas_set]
          have hyb : y ≠ b := fun he => hnd.1 (he ▸ hy)
          simp [hyb, hdis y (List.mem_cons_of_mem _ hy)])
        x hxbs

theorem flatList_chunksOf5 (l : List String) : flatList (chunksOf5 l) = l := by
  induction l using chunksOf5.induct <;> simp_all [chunksOf5, flatList]

theorem processChunks_spec (dt : String)
    (oracle : Nat → Except Unit (List (String × List String))) :
    ∀ (cs : List (List String)) (k : Nat) (acc : List (String × List String)),
      (flatList cs).Nodup →
      (∀ b ∈ flatList cs, objHas acc b = false) →
      (∀ j resp, oracle (k + j) = Except.ok resp →
        ∀ b ∈ cs.getD j [], objHas resp b = true) →
      objKeys (processChunks dt oracle cs k acc) = objKeys acc ++ flatList cs ∧
      (∀ j, oracle (k + j) = Except.error () →
        ∀ b ∈ cs.getD j [],
          objGet (processChunks dt oracle cs k acc) b =
            some ((getFallbackModels dt b).models.take 30)) ∧
      (∀ x, x ∉ flatList cs →
        objGet (processChunks dt oracle cs k acc) x = objGet acc x) := by
  intro cs
  induction cs with
  | nil =>
    intro k acc _ _ _
    refine ⟨by simp [processChunks, flatList], ?_, ?_⟩
    · intro j _ b hb
      simp [List.getD, List.getElem?_nil] at hb
    · intro x _
      rfl
  | cons c cs ih =>
    intro k acc hnd hdis hcov
    have hflat : flatList (c :: cs) = c ++ flatList cs := rfl
    rw [hflat] at hnd hdis
    rw [List.nodup_append] at hnd
    obtain ⟨hndc, hndcs, hdisj⟩ := hnd
    have hdisc : ∀ b ∈ c, objHas acc b = false :=
      fun b hb => hdis b (List.mem_append_left _ hb)
    have hdiscs : ∀ b ∈ flatList cs, objHas acc b = false :=
      fun b hb => hdis b (List.mem_append_right _ hb)
    have hshift : ∀ j, k + 1 + j = k + (j + 1) := fun j => by omega
    rcases hk : oracle k with e | resp
    · -- failed chunk
      simp only [processChunks, hk]
      have hcovc : ∀ b ∈ c, objHas acc b = false := hdisc
      have hkeys1 : objKeys (processErrChunk dt c acc) = objKeys acc ++ c :=
        processErrChunk_keys dt c acc hndc hdisc
      have hdis1 : ∀ b ∈ flatList cs, objHas (processErrChunk dt c acc) b = false := by
        intro b hb
        rw [objHas_eq_isSome_objGet,
          processErrChunk_frame dt c acc b (fun hbc => hdisj hbc hb),
          ← objHas_eq_isSome_objGet]
        exact hdiscs b hb
      have hcov1 : ∀ j resp, oracle (k + 1 + j) = Except.ok resp →
          ∀ b ∈ cs.getD j [], objHas resp b = true := by
        intro j resp hj b hb
        rw [hshift j] at hj
        exact hcov (j + 1) resp hj b (by simpa using hb)
      obtain ⟨ih1, ih2, ih3⟩ := ih (k + 1) (processErrChunk dt c acc) hndcs hdis1 hcov1
      refine ⟨?_, ?_, ?_⟩
      · rw [ih1, hkeys1, hflat, List.append_assoc]
      · intro j hj b hb
        cases j with
        | zero =>
          simp only [List.getD] at hb
          have hbc : b ∈ c := by simpa using hb
          rw [ih3 b (fun hbf => hdisj hbc hbf)]
          exact processErrChunk_get dt c acc hndc hdisc b hbc
        | succ j' =>
          exact ih2 j' (by rw [hshift j']; exact hj) b (by simpa using hb)
      · intro x hx
        rw [hflat] at hx
        have hxc : x ∉ c := fun h => hx (List.mem_append_left _ h)
        have hxcs : x ∉ flatList cs := fun h => hx (List.mem_append_right _ h)
        rw [ih3 x hxcs, processErrChunk_frame dt c acc x hxc]
    · -- successful chunk
      simp only [processChunks, hk]
      have hcovc : ∀ b ∈ c, objHas resp b = true := by
        intro b hb
        exact hcov 0 resp (by rwa [Nat.add_zero]) b (by simpa using hb)
      have hkeys1 : objKeys (processOkChunk resp c acc) = objKeys acc ++ c :=
        processOkChunk_keys resp c acc hndc hcovc hdisc
      have hdis1 : ∀ b ∈ flatList cs, objHas (processOkChunk resp c acc) b = false := by
        intro b hb
        rw [objHas_eq_isSome_objGet,
          processOkChunk_frame resp c acc b (fun hbc => hdisj hbc hb),
          ← objHas_eq_isSome_objGet]
        exact hdiscs b hb
      have hcov1 : ∀ j resp', oracle (k + 1 + j) = Except.ok resp' →
          ∀ b ∈ cs.getD j [], objHas resp' b = true := by
        intro j resp' hj b hb
        rw [hshift j] at hj
        exact hcov (j + 1) resp' hj b (by simpa using hb)
      obtain ⟨ih1, ih2, ih3⟩ := ih (k + 1) (processOkChunk resp c acc) hndcs hdis1 hcov1
      refine ⟨?_, ?_, ?_⟩
      · rw [ih1, hkeys1, hflat, List.append_assoc]
      · intro j hj b hb
        cases j with
        | zero =>
          rw [Nat.add_zero] at hj
          rw [hj] at hk
          cases hk
        | succ j' =>
          exact ih2 j' (by rw [hshift j']; exact hj) b (by simpa using hb)
      · intro x hx
        rw [hflat] at hx
        have hxc : x ∉ c := fun h => hx (List.mem_append_left _ h)
        have hxcs : x ∉ flatList cs := fun h => hx (List.mem_append_right _ h)
        rw [ih3 x hxcs, processOkChunk_frame resp c acc x hxc]

/-- C1 counterexample: one brand, and the single chunk succeeds with a
parsed response that does not mention the brand — the result map has no
key at all, so it does not contain one key per input brand. -/
theorem C1_cex :
    (objKeys (generateBatchDeviceModels "Phone" ["Apple"]
        (fun _ => Except.ok [])).results).length ≠
      (["Apple"] : List String).length := by
  decide

/-- C1 amended: when the input brands are distinct and every successful
chunk response carries a key for each brand of its chunk, the result map's
keys are exactly the input brands (hence N keys for N brands); every brand
of a failed chunk gets the single-brand fallback truncated to 30; and a
chunk's failure never prevents the processing of subsequent chunks (their
brands still appear, as the key equality shows). -/
theorem C1_batch_completeness_amended (dt : String) (brands : List String)
    (oracle : Nat → Except Unit (List (String × List String)))
    (hnd : brands.Nodup)
    (hcov : ∀ k resp, oracle k = Except.ok resp →
      ∀ b ∈ (chunksOf5 brands).getD k [], objHas resp b = true) :
    objKeys (generateBatchDeviceModels dt brands oracle).results = brands ∧
    (∀ k, oracle k = Except.error () →
      ∀ b ∈ (chunksOf5 brands).getD k [],
        objGet (generateBatchDeviceModels dt brands oracle).results b =
          some ((getFallbackModels dt b).models.take 30)) := by
  obtain ⟨h1, h2, _⟩ := processChunks_spec dt oracle (chunksOf5 brands) 0 []
    (by rw [flatList_chunksOf5]; exact hnd)
    (by intro b _; rfl)
    (by
      intro j resp hj b hb
      exact hcov j resp (by rwa [Nat.zero_add] at hj) b hb)
  rw [flatList_chunksOf5] at h1
  constructor
  · simpa [generateBatchDeviceModels, objKeys] using h1
  · intro k hk b hb
    exact h2 k (by rwa [Nat.zero_add]) b hb

/-- C1 amended witness: six distinct brands; the first chunk succeeds and
covers its five brands, the second chunk fails — all six keys are present
and the failed chunk's brand "F" carries the fallback. -/
theorem C1_batch_completeness_amended_witness :
    objKeys (generateBatchDeviceModels "Phone" ["A", "B", "C", "D", "E", "F"]
        c1Oracle).results = ["A", "B", "C", "D", "E", "F"] ∧
    objGet (generateBatchDeviceModels "Phone" ["A", "B", "C", "D", "E", "F"]
        c1Oracle).results "F" =
      some ((getFallbackModels "Phone" "F").models.take 30) := by
  obtain ⟨h1, h2⟩ := C1_batch_completeness_amended "Phone"
    ["A", "B", "C", "D", "E", "F"] c1Oracle (by decide)
    (by
      intro k resp hk b hb
      by_cases h0 : k = 0
      · subst h0
        simp [c1Oracle] at hk
        subst hk
        revert b hb
        decide
      · simp [c1Oracle, h0] at hk)
  exact ⟨h1, h2 1 rfl "F" (by decide)⟩

theorem modelListType_inj (dt b1 b2 : String)
    (h : modelListType dt b1 = modelListType dt b2) : b1 = b2 := by
  unfold modelListType at h
  have hd := congrArg String.data h
  simp only [String.data_append, List.append_assoc] at hd
  exact String.ext
    (List.append_cancel_left (List.append_cancel_left (List.append_cancel_left hd)))

theorem brandsType_ne_modelListType (c dt b : String) :
    ("AutoGen-List-Brands-" ++ c) ≠ modelListType dt b := by
  intro h
  have hd := congrArg String.data h
  unfold modelListType at hd
  simp only [String.data_append, List.append_assoc] at hd
  have h14 := congrArg (fun l => List.take 14 l) hd
  simp only at h14
  rw [List.take_append_of_le_length (by decide),
    List.take_append_of_le_length (by decide)] at h14
  exact absurd h14 (by decide)

theorem saveModelList_WF (dt b : String) (ms : List String) (s : Store)
    (now : Time) (h : StoreWF s) : StoreWF (saveModelList dt b ms s now) := by
  unfold saveModelList
  rcases hex : getAutoGenListByType s (modelListType dt b) with _ | ex <;>
    simp only [hex]
  · exact storeWF_create s _ now h
  · exact storeWF_update s ex.id _ h

theorem saveModelList_getByType_self (dt b : String) (ms : List String)
    (s : Store) (now : Time) :
    ∃ rec, getAutoGenListByType (saveModelList dt b ms s now)
        (modelListType dt b) = some rec ∧ rec.items = ms := by
  unfold saveModelList
  rcases hex : getAutoGenListByType s (modelListType dt b) with _ | ex <;>
    simp only [hex]
  · refine ⟨insRow
      { listType := modelListType dt b
        category := dt
        brand := some b
        items := ms
        lastGenerated := now
        nextUpdate := getNextUpdate "quarterly" now
        refreshInterval := "quarterly"
        isActive := true } s.length now, ?_, rfl⟩
    unfold getAutoGenListByType at hex ⊢
    unfold createAutoGenList
    rw [List.find?_append, hex]
    simp [List.find?, insRow]
  · refine ⟨applyPatch
      { items := some ms
        lastGenerated := some now
        nextUpdate := some (getNextUpdate "monthly" now)
        updatedAt := some now } ex, ?_, rfl⟩
    rw [getByType_update, hex]
    simp [patchIf]

theorem saveModelList_getByType_frame (dt b : String) (ms : List String)
    (s : Store) (now : Time) (t : String) (hwf : StoreWF s)
    (ht : t ≠ modelListType dt b) :
    getAutoGenListByType (saveModelList dt b ms s now) t =
      getAutoGenListByType s t := by
  unfold saveModelList
  rcases hex : getAutoGenListByType s (modelListType dt b) with _ | ex <;>
    simp only [hex]
  · unfold getAutoGenListByType createAutoGenList
    rw [List.find?_append]
    have hnone : List.find? (fun l => l.listType = t)
        [insRow
          { listType := modelListType dt b
            category := dt
            brand := some b
            items := ms
            lastGenerated := now
            nextUpdate := getNextUpdate "quarterly" now
            refreshInterval := "quarterly"
            isActive := true } s.length now] = none := by
      have hmt : ¬ (modelListType dt b = t) := fun h => ht h.symm
      simp [List.find?, insRow, hmt]
    rw [hnone]
    cases List.find? (fun l => l.listType = t) s <;> rfl
  · rw [getByType_update]
    rcases hfound : getAutoGenListByType s t with _ | row
    · rfl
    · have hrow_mem : row ∈ s := List.mem_of_find?_eq_some hfound
      have hex_mem : ex ∈ s := List.mem_of_find?_eq_some hex
      have hrow_t : row.listType = t := by simpa using List.find?_some hfound
      have hex_t : ex.listType = modelListType dt b := by
        simpa using List.find?_some hex
      have hne_val : row ≠ ex := fun he => ht (by rw [← hrow_t, he, hex_t])
      have hne_id : row.id ≠ ex.id := fun he =>
        hne_val (List.inj_on_of_nodup_map hwf.1 hrow_mem hex_mem he)
      simp [patchIf, hne_id]

theorem saveModelList_findById_frame (dt b : String) (ms : List String)
    (s : Store) (now : Time) (j : Nat) (rec : AutoGenList) (hwf : StoreWF s)
    (hfind : findById s j = some rec)
    (ht : rec.listType ≠ modelListType dt b) :
    findById (saveModelList dt b ms s now) j = some rec := by
  unfold saveModelList
  rcases hex : getAutoGenListByType s (modelListType dt b) with _ | ex <;>
    simp only [hex]
  · unfold findById createAutoGenList
    unfold findById at hfind
    rw [List.find?_append, hfind]
    rfl
  · rw [findById_update, hfind]
    have hrec_mem : rec ∈ s := List.mem_of_find?_eq_some hfind
    have hex_mem : ex ∈ s := List.mem_of_find?_eq_some hex
    have hex_t : ex.listType = modelListType dt b := by
      simpa using List.find?_some hex
    have hne_val : rec ≠ ex := fun he => ht (he ▸ hex_t)
    have hne_id : rec.id ≠ ex.id := fun he =>
      hne_val (List.inj_on_of_nodup_map hwf.1 hrec_mem hex_mem he)
    simp [patchIf, hne_id]

theorem jsSetDedupAux_mem (x : String) :
    ∀ (l seen : List String), x ∈ jsSetDedupAux seen l ↔ x ∈ l ∧ x ∉ seen := by
  intro l
  induction l with
  | nil => intro seen; simp [jsSetDedupAux]
  | cons y ys ih =>
    intro seen
    by_cases hy : y ∈ seen
    · rw [jsSetDedupAux, if_pos hy, ih seen]
      constructor
      · rintro ⟨h1, h2⟩
        exact ⟨List.mem_cons_of_mem _ h1, h2⟩
      · rintro ⟨h1, h2⟩
        rcases List.mem_cons.mp h1 with rfl | h1'
        · exact absurd hy h2
        · exact ⟨h1', h2⟩
    · rw [jsSetDedupAux, if_neg hy]
      simp only [List.mem_cons]
      rw [ih (y :: seen)]
      constructor
      · rintro (rfl | ⟨h1, h2⟩)
        · exact ⟨Or.inl rfl, hy⟩
        · refine ⟨Or.inr h1, fun hc => h2 (List.mem_cons_of_mem _ hc)⟩
      · rintro ⟨h1, h2⟩
        by_cases hxy : x = y
        · exact Or.inl hxy
        · rcases h1 with rfl | h1'
          · exact Or.inl rfl
          · refine Or.inr ⟨h1', fun hc => ?_⟩
            rcases List.mem_cons.mp hc with he | hc'
            · exact hxy he
            · exact h2 hc'

theorem jsSetDedup_mem (x : String) (l : List String) :
    x ∈ jsSetDedup l ↔ x ∈ l := by
  unfold jsSetDedup
  rw [jsSetDedupAux_mem]
  simp

theorem sweepLoop_partition (dt : String) (res : List (String × List String))
    (now : Time) :
    ∀ (rest w a : List String) (s : Store),
      (sweepLoop dt res now rest w a s).1 =
        w ++ rest.filter (fun b => decide ((objGet res b).getD [] = [])) ∧
      (sweepLoop dt res now rest w a s).2.1 =
        a ++ rest.filter (fun b => !decide ((objGet res b).getD [] = [])) := by
  intro rest
  induction rest with
  | nil => intro w a s; simp [sweepLoop]
  | cons b bs ih =>
    intro w a s
    by_cases hb : (objGet res b).getD [] = []
    · simp only [sweepLoop, if_pos hb]
      obtain ⟨ih1, ih2⟩ := ih (w ++ [b]) a s
      rw [ih1, ih2]
      constructor <;> simp [List.filter_cons, hb]
    · simp only [sweepLoop, if_neg hb]
      obtain ⟨ih1, ih2⟩ := ih w (a ++ [b])
        (saveModelList dt b ((objGet res b).getD []) s now)
      rw [ih1, ih2]
      constructor <;> simp [List.filter_cons, hb]

theorem sweepLoop_store (dt : String) (res : List (String × List String))
    (now : Time) :
    ∀ (rest : List String) (w a : List String) (s : Store),
      StoreWF s →
      StoreWF (sweepLoop dt res now rest w a s).2.2 ∧
      (∀ b ∈ rest, (objGet res b).getD [] ≠ [] →
        ∃ rec, getAutoGenListByType (sweepLoop dt res now rest w a s).2.2
            (modelListType dt b) = some rec ∧
          rec.items = (objGet res b).getD []) ∧
      (∀ t, (∀ b ∈ rest, (objGet res b).getD [] ≠ [] → t ≠ modelListType dt b) →
        getAutoGenListByType (sweepLoop dt res now rest w a s).2.2 t =
          getAutoGenListByType s t) ∧
      (∀ j rec, findById s j = some rec →
        (∀ b ∈ rest, rec.listType ≠ modelListType dt b) →
        findById (sweepLoop dt res now rest w a s).2.2 j = some rec) := by
  intro rest
  induction rest with
  | nil =>
    intro w a s hwf
    exact ⟨hwf, by simp, fun t _ => rfl, fun j rec h _ => h⟩
  | cons b bs ih =>
    intro w a s hwf
    by_cases hb : (objGet res b).getD [] = []
    · simp only [sweepLoop, if_pos hb]
      obtain ⟨iwf, i1, i2, i3⟩ := ih (w ++ [b]) a s hwf
      refine ⟨iwf, ?_, ?_, ?_⟩
      · intro b' hb' hne
        rcases List.mem_cons.mp hb' with rfl | h
        · exact absurd hb hne
        · exact i1 b' h hne
      · intro t ht
        exact i2 t (fun b' h hne => ht b' (List.mem_cons_of_mem _ h) hne)
      · intro j rec hrec hl
        exact i3 j rec hrec (fun b' h => hl b' (List.mem_cons_of_mem _ h))
    · simp only [sweepLoop, if_neg hb]
      have hwf1 : StoreWF (saveModelList dt b ((objGet res b).getD []) s now) :=
        saveModelList_WF dt b _ s now hwf
      obtain ⟨iwf, i1, i2, i3⟩ := ih w (a ++ [b])
        (saveModelList dt b ((objGet res b).getD []) s now) hwf1
      refine ⟨iwf, ?_, ?_, ?_⟩
      · intro b' hb' hne
        rcases List.mem_cons.mp hb' with rfl | h
        · by_cases hbs : b' ∈ bs
          · exact i1 b' hbs hne
          · obtain ⟨rec, hrec, hitems⟩ :=
              saveModelList_getByType_self dt b' ((objGet res b').getD []) s now
            rw [i2 (modelListType dt b') ?_]
            · exact ⟨rec, hrec, hitems⟩
            · intro b'' hbb _ he
              exact hbs (modelListType_inj dt b' b'' he ▸ hbb)
        · exact i1 b' h hne
      · intro t ht
        rw [i2 t (fun b' h hne => ht b' (List.mem_cons_of_mem _ h) hne)]
        exact saveModelList_getByType_frame dt b _ s now t hwf
          (ht b (List.mem_cons_self b bs) hb)
      · intro j rec hrec hl
        exact i3 j rec
          (saveModelList_findById_frame dt b _ s now j rec hwf hrec
            (hl b (List.mem_cons_self b bs)))
          (fun b' h => hl b' (List.mem_cons_of_mem _ h))

/-- C5: after the model sweep of a category with an existing non-empty
brand list, every brand with a non-empty batch result has its
(category, brand) model CatalogList created or updated with exactly those
items; and when some brand's batch result was empty, the category's brand
list itself is rewritten: `items` becomes exactly the active brands in
their original order and `excludedBrands` becomes the previous exclusions
together with the newly discovered no-model brands (their union as sets,
deduplicated in first-seen order). -/
theorem C5_model_sweep (dt : String)
    (oracle : Nat → Except Unit (List (String × List String)))
    (store : Store) (now : Time) (bl : AutoGenList)
    (hwf : StoreWF store)
    (hbl : getAutoGenList store dt = some bl)
    (hne : bl.items ≠ [])
    (hbltype : bl.listType = "AutoGen-List-Brands-" ++ dt) :
    (∀ b ∈ bl.items, sweepModels dt bl.items oracle b ≠ [] →
      ∃ rec, getAutoGenListByType (generateAllDeviceModelLists dt oracle store now)
          (modelListType dt b) = some rec ∧
        rec.items = sweepModels dt bl.items oracle b) ∧
    (sweepWithout dt bl.items oracle ≠ [] →
      ∃ rec, findById (generateAllDeviceModelLists dt oracle store now) bl.id =
          some rec ∧
        rec.items = sweepActive dt bl.items oracle ∧
        rec.excludedBrands =
          jsSetDedup (bl.excludedBrands ++ sweepWithout dt bl.items oracle) ∧
        (∀ x, x ∈ rec.excludedBrands ↔
          x ∈ bl.excludedBrands ∨ x ∈ sweepWithout dt bl.items oracle)) := by
  have hlen : ¬ bl.items.length = 0 := fun h => hne (List.length_eq_zero.mp h)
  rcases hs : sweepLoop dt (generateBatchDeviceModels dt bl.items oracle).results
      now bl.items [] [] store with ⟨w, a, s1⟩
  have hred : generateAllDeviceModelLists dt oracle store now =
      (if 0 < w.length ∨ a.length ≠ bl.items.length then
        updateAutoGenList s1 bl.id
          { items := some a
            excludedBrands := some (jsSetDedup (bl.excludedBrands ++ w))
            lastGenerated := some now
            nextUpdate := some (getNextUpdate "monthly" now)
            updatedAt := some now }
      else s1) := by
    simp only [generateAllDeviceModelLists, hbl, if_neg hlen, hs]
  have hpart := sweepLoop_partition dt
    (generateBatchDeviceModels dt bl.items oracle).results now bl.items [] [] store
  rw [hs] at hpart
  have hwW : w = sweepWithout dt bl.items oracle := by
    have h1 := hpart.1
    simpa [sweepWithout, sweepModels] using h1
  have haA : a = sweepActive dt bl.items oracle := by
    have h2 := hpart.2
    simpa [sweepActive, sweepModels] using h2
  obtain ⟨s1wf, P1, P2, P3⟩ := sweepLoop_store dt
    (generateBatchDeviceModels dt bl.items oracle).results now bl.items [] [] store hwf
  rw [hs] at s1wf P1 P2 P3
  have hblmem : bl ∈ store := List.mem_of_find?_eq_some hbl
  have hblfind : findById store bl.id = some bl := findById_of_mem store bl hblmem hwf
  have hblkeep : findById s1 bl.id = some bl :=
    P3 bl.id bl hblfind
      (fun b' _ => by rw [hbltype]; exact brandsType_ne_modelListType dt dt b')
  constructor
  · intro b hbmem hbne
    obtain ⟨rec, hrec, hitems⟩ := P1 b hbmem (by
      simpa [sweepModels] using hbne)
    rw [hred]
    by_cases hcond : 0 < w.length ∨ a.length ≠ bl.items.length
    · rw [if_pos hcond, getByType_update, hrec]
      have hrecmem : rec ∈ s1 := List.mem_of_find?_eq_some hrec
      have hblmem1 : bl ∈ s1 := List.mem_of_find?_eq_some hblkeep
      have hrect : rec.listType = modelListType dt b := by
        simpa using List.find?_some hrec
      have hneval : rec ≠ bl := fun he =>
        brandsType_ne_modelListType dt dt b (by rw [← hbltype, ← hrect, he])
      have hneid : rec.id ≠ bl.id := fun he =>
        hneval (List.inj_on_of_nodup_map s1wf.1 hrecmem hblmem1 he)
      refine ⟨rec, ?_, by simpa [sweepModels] using hitems⟩
      simp [patchIf, hneid]
    · rw [if_neg hcond]
      exact ⟨rec, hrec, by simpa [sweepModels] using hitems⟩
  · intro hwne
    have hcond : 0 < w.length ∨ a.length ≠ bl.items.length := by
      left
      rw [hwW]
      exact List.length_pos.mpr hwne
    rw [hred, if_pos hcond, findById_update, hblkeep, Option.map_some']
    refine ⟨patchIf bl.id _ bl, rfl, ?_, ?_, ?_⟩
    · unfold patchIf
      rw [if_pos rfl]
      simpa [applyPatch] using haA
    · unfold patchIf
      rw [if_pos rfl]
      simpa [applyPatch] using congrArg (fun z => jsSetDedup (bl.excludedBrands ++ z)) hwW
    · intro x
      unfold patchIf
      rw [if_pos rfl]
      simp only [applyPatch, Option.getD]
      rw [jsSetDedup_mem, List.mem_append, hwW]

/-- C5 witness: after the sweep, Apple's model list holds exactly
`["iPhone 1"]` and the Phone brand list has `items = ["Apple"]`,
`excludedBrands = ["Zeno"]` — the spec's end-to-end scenario. -/
theorem C5_model_sweep_witness :
    (getAutoGenListByType (generateAllDeviceModelLists "Phone" c5Oracle
        [c5BrandList] ⟨10, 0⟩) (modelListType "Phone" "Apple")).map
        (fun l => l.items) = some ["iPhone 1"] ∧
    (findById (generateAllDeviceModelLists "Phone" c5Oracle
        [c5BrandList] ⟨10, 0⟩) c5BrandList.id).map
        (fun l => (l.items, l.excludedBrands)) = some (["Apple"], ["Zeno"]) := by
  obtain ⟨hA, hB⟩ := C5_model_sweep "Phone" c5Oracle [c5BrandList] ⟨10, 0⟩
    c5BrandList (by constructor <;> decide) (by decide) (by decide) rfl
  obtain ⟨rec1, hrec1, hit1⟩ := hA "Apple" (by decide) (by decide)
  obtain ⟨rec2, hrec2, hit2, hex2, _⟩ := hB (by decide)
  constructor
  · rw [hrec1]
    simp only [Option.map_some']
    rw [hit1]
    decide
  · rw [hrec2]
    simp only [Option.map_some']
    rw [hit2, hex2]
    decide

end RepairBeam
